import Mathlib

/-!
Verification of the structured-extraction-and-recommendation engine of the
pydocify repository (`src/test.py`, class `ContextGeneration`, with the
earlier revision `src/test_archive.py` for the retry loop).

The Python code is shallowly embedded:

* Python/JSON values are modelled by the inductive `PyVal` (strings, ints,
  booleans, `None`, lists, and insertion-ordered dicts with unique keys).
* Fallible Python operations (`d[k]`, iteration, `str.join`, ...) return
  `Except Unit _`; a raised exception is `.error ()`.
* The filesystem read by `openfile` is a map `FS` from file names to the
  parsed JSON value; `none` models a missing, unreadable or malformed file
  (in all of which `json.load`/`open` raises and `openfile` of `test.py`
  returns `[]`).
* The external text-generation capability (an LLM behind
  `prompt | self.model | parser`) is an oracle `Nat → Except Unit PyVal`
  giving the parsed structured response of the i-th invocation; `.error`
  models an invocation that raises (transport failure or unparseable
  output).  The prompt text does not influence the control flow modelled
  here, so the oracle takes only the invocation index.
* The unbounded `while` loop of `find_topics` is given a fuel parameter;
  `none` means the loop has not terminated within the given fuel.
-/

inductive PyVal where
  | str (s : String)
  | int (n : Int)
  | bool (b : Bool)
  | pynone
  | list (xs : List PyVal)
  | dict (d : List (String × PyVal))

/- Python `==` (restricted to the JSON-representable values above):
strings compare by content, numbers numerically (`True == 1`,
`False == 0`), lists elementwise, dicts as key-value mappings
(Python dict equality ignores insertion order; Python dicts cannot
repeat a key). Values of different kinds are unequal. -/
mutual
def pyEq : PyVal → PyVal → Bool
  | .str a, .str b => a == b
  | .int a, .int b => a == b
  | .bool a, .bool b => a == b
  | .bool a, .int b => (if a then (1 : Int) else 0) == b
  | .int a, .bool b => a == (if b then (1 : Int) else 0)
  | .pynone, .pynone => true
  | .list xs, .list ys => pyEqList xs ys
  | .dict d1, .dict d2 => d1.length == d2.length && pyEqDict d1 d2
  | _, _ => false

def pyEqList : List PyVal → List PyVal → Bool
  | [], [] => true
  | x :: xs, y :: ys => pyEq x y && pyEqList xs ys
  | _, _ => false

def pyEqDict : List (String × PyVal) → List (String × PyVal) → Bool
  | [], _ => true
  | kv :: rest, d2 =>
      (match d2.find? (fun kv2 => kv2.1 == kv.1) with
       | some kv2 => pyEq kv.2 kv2.2
       | none => false) && pyEqDict rest d2
end

/-- Python `x in l` for a list `l`. -/
def pyIn (v : PyVal) (l : List PyVal) : Bool := l.any (fun e => pyEq v e)

/-- First value stored under key `k` (Python dicts have unique keys, so
this is the value of `d[k]` when present). -/
def lookup? (d : List (String × PyVal)) (k : String) : Option PyVal :=
  match d.find? (fun kv => kv.1 == k) with
  | some kv => some kv.2
  | none => none

/-- Python `v[k]` for a string key: raises unless `v` is a dict
containing `k` (`KeyError`/`TypeError`). -/
def pyGetItem (v : PyVal) (k : String) : Except Unit PyVal :=
  match v with
  | .dict d =>
      match lookup? d k with
      | some x => .ok x
      | none => .error ()
  | _ => .error ()

/-- `d[k] = v` on the underlying association list: replace in place if the
key exists, else append at the end (Python dict insertion order). -/
def setItemD : List (String × PyVal) → String → PyVal → List (String × PyVal)
  | [], k, v => [(k, v)]
  | (k0, v0) :: rest, k, v =>
      if k0 = k then (k0, v) :: rest else (k0, v0) :: setItemD rest k v

/-- Python `tgt[k] = v`: raises unless `tgt` is a dict. -/
def pySetItem (tgt : PyVal) (k : String) (v : PyVal) : Except Unit PyVal :=
  match tgt with
  | .dict d => .ok (.dict (setItemD d k v))
  | _ => .error ()

/-- Python iteration `for x in v`: lists yield their elements, strings
their characters (as one-character strings), dicts their keys; other
values raise `TypeError`. -/
def pyIterate : PyVal → Except Unit (List PyVal)
  | .list xs => .ok xs
  | .str s => .ok (s.toList.map (fun c => .str (String.singleton c)))
  | .dict d => .ok (d.map (fun kv => .str kv.1))
  | _ => .error ()

/-- Python `s.split(",")`: split on every comma, keeping empty pieces
(`"".split(",") == [""]`). -/
def splitCommaAux : List Char → List Char → List String
  | [], cur => [String.mk cur.reverse]
  | c :: rest, cur =>
      if c = ',' then String.mk cur.reverse :: splitCommaAux rest []
      else splitCommaAux rest (c :: cur)

def pySplitComma (s : String) : List String := splitCommaAux s.toList []

/-- `v.split(",")` as used on `cf['concepts']`: raises unless `v` is a
string (`AttributeError`). -/
def pySplitStr : PyVal → Except Unit (List String)
  | .str s => .ok (pySplitComma s)
  | _ => .error ()

/-- A single-quote character, kept out of string literals. -/
def pyQuote : String := String.singleton (Char.ofNat 39)

/-- Escaping used by Python `repr` on strings.  (Rare control characters
other than newline/carriage-return/tab are left unescaped; none of the
strings this development evaluates contain them.) -/
def escChar (c : Char) : String :=
  if c = '\\' then "\\" ++ "\\"
  else if c = Char.ofNat 39 then "\\" ++ pyQuote
  else if c = '\n' then "\\n"
  else if c = '\r' then "\\r"
  else if c = '\t' then "\\t"
  else String.singleton c

def escPy (s : String) : String := String.join (s.toList.map escChar)

/- Python `repr`, as used when a list/dict is interpolated into an
f-string. -/
mutual
def pyRepr : PyVal → String
  | .str s => pyQuote ++ escPy s ++ pyQuote
  | .int n => toString n
  | .bool b => if b then "True" else "False"
  | .pynone => "None"
  | .list xs => "[" ++ pyReprList xs ++ "]"
  | .dict d => "\x7b" ++ pyReprDict d ++ "\x7d"

def pyReprList : List PyVal → String
  | [] => ""
  | [x] => pyRepr x
  | x :: y :: rest => pyRepr x ++ ", " ++ pyReprList (y :: rest)

def pyReprDict : List (String × PyVal) → String
  | [] => ""
  | [(k, v)] => pyQuote ++ escPy k ++ pyQuote ++ ": " ++ pyRepr v
  | (k, v) :: kv :: rest =>
      pyQuote ++ escPy k ++ pyQuote ++ ": " ++ pyRepr v ++ ", " ++ pyReprDict (kv :: rest)
end

/-- Python `str(v)` as used by f-string interpolation. -/
def pyStr : PyVal → String
  | .str s => s
  | v => pyRepr v

/-- Python `sep.join(v)`: iterates `v` and raises unless every element is
a string. -/
def pyJoinAux (sep : String) : List PyVal → Except Unit (List String)
  | [] => .ok []
  | .str s :: rest => do
      let tail ← pyJoinAux sep rest
      pure (s :: tail)
  | _ => .error ()

def pyJoin (sep : String) (v : PyVal) : Except Unit String := do
  let elems ← pyIterate v
  let strs ← pyJoinAux sep elems
  pure (String.intercalate sep strs)

namespace ContextGeneration

/-- The two module-level corpus paths of `test.py`. -/
def topicFile : String := "data/itemCorpus.json"

def referFile : String := "data/conceptRefs.json"

/-- The filesystem as seen by `openfile`: the parsed JSON content of each
path, or `none` when opening/parsing raises. -/
def FS : Type := String → Option PyVal

/-- `openfile` of `test.py`: returns the parsed JSON, and `[]` whenever
opening or parsing raises (`except Exception: return []`). -/
def openfile (fs : FS) (filename : String) : PyVal :=
  match fs filename with
  | some v => v
  | none => .list []

/-- The loop body of `get_topic_list`:
`for topic in topics: topic_list.extend(topic['category'])`. -/
def extendTopicList : List PyVal → Except Unit (List PyVal)
  | [] => .ok []
  | topic :: rest => do
      let c ← pyGetItem topic "category"
      let cs ← pyIterate c
      let tail ← extendTopicList rest
      pure (cs ++ tail)

/-- `get_topic_list` of `test.py` (exceptions it raises propagate to the
caller). -/
def get_topic_list (fs : FS) : Except Unit (List PyVal) := do
  let topics := openfile fs topicFile
  let items ← pyIterate topics
  extendTopicList items

/-- `'k' in item and isinstance(item['k'], str)` for a looked-up field. -/
def isStrField : Option PyVal → Bool
  | some (.str _) => true
  | _ => false

/-- `'k' in item and isinstance(item['k'], list)` together with the final
`all(isinstance(category, str) ...)` check of `validate_structure`. -/
def isStrListField : Option PyVal → Bool
  | some (.list cats) =>
      cats.all (fun category =>
        match category with
        | .str _ => true
        | _ => false)
  | _ => false

/-- The per-item check of `validate_structure` (the source returns
`False` at the first failing check; conjunction short-circuits the same
way). -/
def validItem : PyVal → Bool
  | .dict d =>
      isStrField (lookup? d "topic") &&
      (isStrField (lookup? d "subject_explaination") &&
       isStrListField (lookup? d "related_categories"))
  | _ => false

/-- `validate_structure` of `test.py`: `data` must be a list of dicts,
each with a string `topic`, a string `subject_explaination`, and a
`related_categories` list whose elements are all strings. -/
def validate_structure : PyVal → Bool
  | .list items => items.all validItem
  | _ => false

/-- The structure returned by `find_topics` after all retries are
exhausted. -/
def placeholderList : PyVal :=
  .list [.dict
    [("topic", .str ""),
     ("subject_explaination", .str ""),
     ("related_categories", .list [])]]

/-- The LLM oracle: parsed structured response of the i-th invocation of
`chain.invoke`, or `.error` if that invocation raises. -/
def LLM : Type := Nat → Except Unit PyVal

/-- The `while attempts < max_retries` loop of `find_topics` in
`test.py`.  `i` counts invocations, `fuel` bounds the number of loop
iterations observed; `none` means the loop has not finished within
`fuel` iterations.  Note the source increments `attempts` only in the
`except` branch: a response that parses but fails validation leaves
`attempts` unchanged. -/
def find_topics_loop (llm : LLM) (maxRetries : Nat) : Nat → Nat → Nat → Option PyVal
  | _, _, 0 => none
  | i, attempts, fuel + 1 =>
      if attempts < maxRetries then
        match llm i with
        | .ok response =>
            if validate_structure response then some response
            else find_topics_loop llm maxRetries (i + 1) attempts fuel
        | .error _ => find_topics_loop llm maxRetries (i + 1) (attempts + 1) fuel
      else some placeholderList

/-- `find_topics` of `test.py` (`max_retries` defaults to 3). -/
def find_topics (llm : LLM) (maxRetries fuel : Nat) : Option PyVal :=
  find_topics_loop llm maxRetries 0 0 fuel

/-- The loop of `find_topics` in `test_archive.py`, phrased on the
remaining number of attempts (`remaining = max_retries - attempts`;
the loop runs while `attempts < max_retries` and increments `attempts`
exactly when validation fails, so it is structurally bounded).  There is
no `try/except`: a raising invocation propagates.  Returns the result
together with the number of invocations performed. -/
def archiveLoop (llm : LLM) : Nat → Nat → Except Unit (PyVal × Nat)
  | i, 0 => .ok (placeholderList, i)
  | i, remaining + 1 =>
      match llm i with
      | .ok response =>
          if validate_structure response then .ok (response, i + 1)
          else archiveLoop llm (i + 1) remaining
      | .error e => .error e

/-- `find_topics` of `test_archive.py`. -/
def find_topics_archive (llm : LLM) (maxRetries : Nat) : Except Unit (PyVal × Nat) :=
  archiveLoop llm 0 maxRetries

/-- `count = len([val for val in concepts if val in cf_list])` where
`cf_list` is the list of strings produced by `split(",")`. -/
def overlapCount (vals : List PyVal) (cf_list : List String) : Nat :=
  (vals.filter (fun val => pyIn val (cf_list.map PyVal.str))).length

/-- `[re['Title'] for re in reference_list]`. -/
def refTitles : List PyVal → Except Unit (List PyVal)
  | [] => .ok []
  | re :: rest => do
      let t ← pyGetItem re "Title"
      let ts ← refTitles rest
      pure (t :: ts)

/-- The inner loop of `find_references`:
`for item in cf['references']: item['star'] = count; if item['Title'] not
in [re['Title'] for re in reference_list]: reference_list.append(item)`.
(The parsed JSON shares no objects, so setting `star` on `item` mutates
no record already appended; value semantics coincide with the source.) -/
def addEntryRefs (count : Nat) : List PyVal → List PyVal → Except Unit (List PyVal)
  | acc, [] => .ok acc
  | acc, item :: rest => do
      let item1 ← pySetItem item "star" (.int count)
      let t ← pyGetItem item1 "Title"
      let prior ← refTitles acc
      if pyIn t prior then addEntryRefs count acc rest
      else addEntryRefs count (acc ++ [item1]) rest

/-- The outer loop of `find_references` over the entries of the parsed
concept-reference corpus. -/
def collectEntries (concepts : PyVal) : List PyVal → List PyVal → Except Unit (List PyVal)
  | acc, [] => .ok acc
  | acc, cf :: rest => do
      let cstr ← pyGetItem cf "concepts"
      let cf_list ← pySplitStr cstr
      let vals ← pyIterate concepts
      let count := overlapCount vals cf_list
      let acc1 ←
        if count > 0 then do
          let refsv ← pyGetItem cf "references"
          let refs ← pyIterate refsv
          addEntryRefs count acc refs
        else pure acc
      collectEntries concepts acc1 rest

/-- `x["star"]`, the sort key of `find_references`.  Every record in
`reference_list` was given an integer `star` by `item['star'] = count`
before being appended, so the fallback branch is unreachable there. -/
def starOf (v : PyVal) : Int :=
  match pyGetItem v "star" with
  | .ok (.int n) => n
  | _ => 0

/-- The ordering of `sorted(reference_list, key=lambda x: x["star"],
reverse=True)`: higher `star` first. -/
def rStar (a b : PyVal) : Prop := starOf b ≤ starOf a

instance : DecidableRel rStar := fun _a _b => inferInstanceAs (Decidable (_ ≤ _))

instance : IsTrans PyVal rStar := ⟨fun _ _ _ h1 h2 => le_trans h2 h1⟩

instance : IsTotal PyVal rStar := ⟨fun a b => (le_total (starOf b) (starOf a)).imp id id⟩

/-- Python `sorted(..., key=.., reverse=True)` is a stable descending
sort; the stable sort of a list under a total preorder is unique, so the
stable `insertionSort` computes exactly its result. -/
def sortByStar (l : List PyVal) : List PyVal := List.insertionSort rStar l

/-- `find_references` of `test.py`: scores the corpus entries by overlap
with `concepts`, deduplicates by `Title` (first write wins), sorts by
`star` descending, and returns the sorted list with the number of
collected records. -/
def find_references (fs : FS) (concepts : PyVal) : Except Unit (List PyVal × Nat) := do
  let concept_refers := openfile fs referFile
  let cfs ← pyIterate concept_refers
  let reference_list ← collectEntries concepts [] cfs
  pure (sortByStar reference_list, reference_list.length)

/-- The body of the per-topic `try` block of `find_relevent_refs`
(`N = 2`). -/
def scoreAttempt (fs : FS) (ele : PyVal) : Except Unit PyVal := do
  let related_concepts ← pyGetItem ele "related_categories"
  let res ← find_references fs related_concepts
  pySetItem ele "recommended_references" (.list (res.1.take 2))

/-- One iteration of `find_relevent_refs`: on any exception the topic is
left unchanged (`except Exception: continue`). -/
def enrichTopic (fs : FS) (ele : PyVal) : PyVal :=
  match scoreAttempt fs ele with
  | .ok e => e
  | .error _ => ele

/-- `find_relevent_refs` of `test.py`: iterates `relevant_topics`,
enriches each element in place, and returns the iterated object itself.
Iterating a string or a dict yields strings (characters/keys), which the
per-element `try` leaves unchanged, so the original value is returned;
non-iterable values raise. -/
def find_relevent_refs (fs : FS) (relevant_topics : PyVal) : Except Unit PyVal :=
  match relevant_topics with
  | .list items => .ok (.list (items.map (enrichTopic fs)))
  | .str s => .ok (.str s)
  | .dict d => .ok (.dict d)
  | _ => .error ()

/-- `find_relevant_topics` of `test.py`: `get_topic_list` runs first and
its exceptions propagate; then the bounded-fuel `find_topics` runs (its
own exceptions are all caught inside).  `none` = the retry loop did not
terminate within the fuel. -/
def find_relevant_topics (fs : FS) (llm : LLM) (fuel : Nat) : Option (Except Unit PyVal) :=
  match get_topic_list fs with
  | .error e => some (.error e)
  | .ok _topics => (find_topics llm 3 fuel).map Except.ok

/-- The chain-of-thought string built in `__init__` (`self.model` is
interpolated via `str`, passed here as `modelStr`). -/
def initial_chain (term_paper_string modelStr : String) : String :=
  "Chain-of-Thought : \n        \n        Step 1 : Understanding the input from student which includes term paper, research topic and research questions :\n        "
  ++ term_paper_string
  ++ "\n        Recommendation Engine selected : Knowledge Based\n        Large Language Model selected : "
  ++ modelStr
  ++ "\n        "

/-- `_append_relevant_topics`: returns the text appended to the chain of
thought together with the resulting `self.relevant_topics` (set to `[]`
when `find_relevant_topics` raises). -/
def append_relevant_topics (fs : FS) (llm : LLM) (fuel : Nat) : Option (String × PyVal) :=
  match find_relevant_topics fs llm fuel with
  | none => none
  | some (.ok t) => some ("\n\nStep 2: Relevant Topics:\n" ++ pyStr t, t)
  | some (.error _) =>
      some ("\n\nStep 2: Relevant Topics:\nNo relevant topics found.", .list [])

/-- `_append_relevant_references`: returns the appended text together
with the resulting `self.relevant_references` (the fallback string
itself when `find_relevent_refs` raises). -/
def append_relevant_references (fs : FS) (relevant_topics : PyVal) : String × PyVal :=
  match find_relevent_refs fs relevant_topics with
  | .ok r => ("\n\nStep 3: Relevant References:\n" ++ pyStr r, r)
  | .error _ =>
      ("\n\nStep 3: Relevant References:\nNo relevant references found.",
       .str "No relevant references found")

/-- `generate_chain_of_thought`: both `_append` helpers catch every
exception, so this never raises; it returns the accumulated chain of
thought and `self.relevant_references`. -/
def generate_chain_of_thought (fs : FS) (llm : LLM) (term_paper_string modelStr : String)
    (fuel : Nat) : Option (String × PyVal) :=
  match append_relevant_topics fs llm fuel with
  | none => none
  | some (s2, relevant_topics) =>
      let (s3, relevant_references) := append_relevant_references fs relevant_topics
      some (initial_chain term_paper_string modelStr ++ s2 ++ s3, relevant_references)

/-- The loop of the inner `format_references` helper, with `enumerate`
index `i` (field interpolation uses `str`, `Authors` is joined and must
be an iterable of strings). -/
def format_references_aux : Nat → List PyVal → Except Unit String
  | _, [] => .ok ""
  | i, ref :: rest => do
      let t ← pyGetItem ref "Title"
      let authors ← pyGetItem ref "Authors"
      let aj ← pyJoin ", " authors
      let src ← pyGetItem ref "Source"
      let date ← pyGetItem ref "Date"
      let summary ← pyGetItem ref "Summary"
      let tail ← format_references_aux (i + 1) rest
      pure ("\n" ++ toString i ++ ". Title: " ++ pyStr t
        ++ "\n   Authors: " ++ aj
        ++ "\n   Source: " ++ pyStr src
        ++ "\n   Date: " ++ pyStr date
        ++ "\n   Summary: " ++ pyStr summary ++ "\n" ++ tail)

def format_references (references : PyVal) : Except Unit String := do
  let items ← pyIterate references
  format_references_aux 1 items

/-- The loop of `format_relevant_refs`, with `enumerate` index `i`
(`chr(64 + i)` is the section letter). -/
def format_relevant_refs_aux : Nat → List PyVal → Except Unit String
  | _, [] => .ok ""
  | i, item :: rest => do
      let topic_letter := String.singleton (Char.ofNat (64 + i))
      let t ← pyGetItem item "topic"
      let se ← pyGetItem item "subject_explaination"
      let rc ← pyGetItem item "related_categories"
      let rcj ← pyJoin ", " rc
      let rr ← pyGetItem item "recommended_references"
      let fr ← format_references rr
      let tail ← format_relevant_refs_aux (i + 1) rest
      pure ("\n(" ++ topic_letter ++ ") Topic: " ++ pyStr t
        ++ "\n    Subject Explaination: " ++ pyStr se
        ++ "\n    Related Categories: " ++ rcj
        ++ "\n    Recommended References:\n" ++ fr ++ "\n" ++ tail)

def format_relevant_refs (relevant_topics : PyVal) : Except Unit String := do
  let items ← pyIterate relevant_topics
  format_relevant_refs_aux 1 items

/-- `main` of `test.py`: runs `generate_chain_of_thought` (which never
raises) and `format_relevant_refs` inside one `try`; any exception is
converted to the fixed pair `("No references found", self.chain_of_thought)`.
`none` = the retry loop inside extraction did not terminate within the
fuel. -/
def main (fs : FS) (llm : LLM) (term_paper_string modelStr : String) (fuel : Nat) :
    Option (String × String) :=
  match generate_chain_of_thought fs llm term_paper_string modelStr fuel with
  | none => none
  | some (chain, relevant_references) =>
      match format_relevant_refs relevant_references with
      | .ok out => some (out, chain)
      | .error _ => some ("No references found", chain)

end ContextGeneration

open ContextGeneration

/-!
Typed view of a well-formed concept-reference corpus (the shape described
in spec §3/§6: entries with a comma-separated `concepts` string and
reference records with string `Title`/`Source`/`Date`/`Summary` and a
list-of-strings `Authors`).  `encodeEntry`/`encodeRef` inject this typed
view into the untyped `PyVal`s that the embedded code actually consumes;
the simulation lemmas below relate the untyped run on an encoded corpus
to the typed recursion `collectT`.
-/

structure RefData where
  title : String
  authors : List String
  source : String
  date : String
  summary : String

structure CEntry where
  concepts : String
  references : List RefData

def encodeRef (r : RefData) : PyVal :=
  .dict [("Title", .str r.title),
         ("Authors", .list (r.authors.map PyVal.str)),
         ("Source", .str r.source),
         ("Date", .str r.date),
         ("Summary", .str r.summary)]

/-- `encodeRef` after `item['star'] = count`. -/
def encodeScored (r : RefData) (count : Nat) : PyVal :=
  .dict [("Title", .str r.title),
         ("Authors", .list (r.authors.map PyVal.str)),
         ("Source", .str r.source),
         ("Date", .str r.date),
         ("Summary", .str r.summary),
         ("star", .int count)]

def encodeScoredP (p : RefData × Nat) : PyVal := encodeScored p.1 p.2

def encodeEntry (e : CEntry) : PyVal :=
  .dict [("concepts", .str e.concepts),
         ("references", .list (e.references.map encodeRef))]

/-- A filesystem holding exactly the encoded concept-reference corpus
(and nothing else). -/
def encFS (es : List CEntry) : ContextGeneration.FS :=
  fun name => if name = ContextGeneration.referFile then some (.list (es.map encodeEntry)) else none

/-- Typed image of `addEntryRefs` on an encoded corpus entry. -/
def addEntryRefsT (count : Nat) : List (RefData × Nat) → List RefData → List (RefData × Nat)
  | acc, [] => acc
  | acc, item :: rest =>
      if item.title ∈ acc.map (fun p => p.1.title)
      then addEntryRefsT count acc rest
      else addEntryRefsT count (acc ++ [(item, count)]) rest

/-- Typed image of `collectEntries` on an encoded corpus. -/
def collectT (cats : List String) : List (RefData × Nat) → List CEntry → List (RefData × Nat)
  | acc, [] => acc
  | acc, cf :: rest =>
      let cf_list := pySplitComma cf.concepts
      let count := (cats.filter (fun v => v ∈ cf_list)).length
      collectT cats (if count > 0 then addEntryRefsT count acc cf.references else acc) rest

/-- The `Title` value of a scored record (every record `find_references`
accumulates has one; `.pynone` is an unreachable fallback). -/
def titleOf (v : PyVal) : PyVal :=
  match pyGetItem v "Title" with
  | .ok t => t
  | .error _ => .pynone

/-- The shape demanded by the specification of the validator (§4.2): a
sequence of mappings, each with a string `topic`, a string explanation
(the code spells the key `subject_explaination`), and a
`related_categories` sequence of strings. -/
def ItemShaped (item : PyVal) : Prop :=
  ∃ d, item = .dict d ∧
    (∃ s, lookup? d "topic" = some (.str s)) ∧
    (∃ s, lookup? d "subject_explaination" = some (.str s)) ∧
    (∃ cats, lookup? d "related_categories" = some (.list cats) ∧
      ∀ c ∈ cats, ∃ s, c = PyVal.str s)

def ShapedPerSpec (v : PyVal) : Prop :=
  ∃ items, v = .list items ∧ ∀ item ∈ items, ItemShaped item

/-- An external capability that, on every invocation, returns (without
raising) a structure the validator rejects: the JSON array `[0]`. -/
def badLLM : ContextGeneration.LLM := fun _ => .ok (.list [.int 0])

/-!  ### Supporting lemmas  -/

theorem lookup?_setItemD_self (d : List (String × PyVal)) (k : String) (v : PyVal) :
    lookup? (setItemD d k v) k = some v := by
  induction d with
  | nil => simp [setItemD, lookup?]
  | cons kv rest ih =>
      obtain ⟨k0, v0⟩ := kv
      by_cases h : k0 = k
      · subst h
        simp [setItemD, lookup?]
      · simpa [setItemD, h, lookup?, List.find?] using ih

theorem lookup?_setItemD_ne (d : List (String × PyVal)) (k k2 : String) (v : PyVal)
    (hk : k2 ≠ k) : lookup? (setItemD d k v) k2 = lookup? d k2 := by
  induction d with
  | nil =>
      have hne : (k == k2) = false := beq_eq_false_iff_ne.mpr (Ne.symm hk)
      simp [setItemD, lookup?, List.find?, hne]
  | cons kv rest ih =>
      obtain ⟨k0, v0⟩ := kv
      by_cases h : k0 = k
      · subst h
        have hne : (k0 == k2) = false := by
          simp [Ne.symm hk]
        simp [setItemD, lookup?, List.find?, hne]
      · by_cases h2 : k0 = k2
        · subst h2
          simp [setItemD, h, lookup?, List.find?]
        · have hne : (k0 == k2) = false := by simp [h2]
          simpa [setItemD, h, lookup?, List.find?, hne] using ih

theorem pyGetItem_pySetItem_self {tgt out : PyVal} {k : String} {v : PyVal}
    (h : pySetItem tgt k v = .ok out) : pyGetItem out k = .ok v := by
  cases tgt with
  | dict d =>
      simp only [pySetItem, Except.ok.injEq] at h
      subst h
      simp [pyGetItem, lookup?_setItemD_self]
  | str s => simp [pySetItem] at h
  | int n => simp [pySetItem] at h
  | bool b => simp [pySetItem] at h
  | pynone => simp [pySetItem] at h
  | list xs => simp [pySetItem] at h

theorem pyGetItem_pySetItem_ne {tgt out : PyVal} {k k2 : String} {v : PyVal}
    (h : pySetItem tgt k v = .ok out) (hk : k2 ≠ k) :
    pyGetItem out k2 = pyGetItem tgt k2 := by
  cases tgt with
  | dict d =>
      simp only [pySetItem, Except.ok.injEq] at h
      subst h
      simp [pyGetItem, lookup?_setItemD_ne _ _ _ _ hk]
  | str s => simp [pySetItem] at h
  | int n => simp [pySetItem] at h
  | bool b => simp [pySetItem] at h
  | pynone => simp [pySetItem] at h
  | list xs => simp [pySetItem] at h

theorem isStrField_iff (o : Option PyVal) :
    isStrField o = true ↔ ∃ s, o = some (.str s) := by
  cases o with
  | none => simp [isStrField]
  | some v => cases v <;> simp [isStrField]

theorem isStrListField_iff (o : Option PyVal) :
    isStrListField o = true ↔
      ∃ cats, o = some (.list cats) ∧ ∀ c ∈ cats, ∃ s, c = PyVal.str s := by
  cases o with
  | none => simp [isStrListField]
  | some v =>
      cases v with
      | list cats =>
          simp only [isStrListField, List.all_eq_true, Option.some.injEq,
            PyVal.list.injEq]
          constructor
          · intro h
            refine ⟨cats, rfl, fun c hc => ?_⟩
            have hcv := h c hc
            cases c <;> simp_all
          · rintro ⟨cats2, rfl, h⟩
            intro c hc
            obtain ⟨s, rfl⟩ := h c hc
            rfl
      | str s => simp [isStrListField]
      | int n => simp [isStrListField]
      | bool b => simp [isStrListField]
      | pynone => simp [isStrListField]
      | dict d => simp [isStrListField]

theorem validItem_iff (item : PyVal) : validItem item = true ↔ ItemShaped item := by
  cases item with
  | dict d =>
      simp only [validItem, Bool.and_eq_true, isStrField_iff, isStrListField_iff,
        ItemShaped, PyVal.dict.injEq]
      constructor
      · rintro ⟨h1, h2, h3⟩
        exact ⟨d, rfl, h1, h2, h3⟩
      · rintro ⟨d2, rfl, h1, h2, h3⟩
        exact ⟨h1, h2, h3⟩
  | str s => simp [validItem, ItemShaped]
  | int n => simp [validItem, ItemShaped]
  | bool b => simp [validItem, ItemShaped]
  | pynone => simp [validItem, ItemShaped]
  | list xs => simp [validItem, ItemShaped]

theorem find_topics_loop_badLLM (fuel : Nat) :
    ∀ i, find_topics_loop badLLM 3 i 0 fuel = none := by
  induction fuel with
  | zero => intro i; rfl
  | succ n ih =>
      intro i
      have hbad : validate_structure (.list [.int 0]) = false := rfl
      simp only [find_topics_loop, badLLM, hbad]
      exact ih (i + 1)

/-!  ### Claim theorems  -/

/-- C5.  `validate_structure` returns `true` exactly on candidates that
are sequences of mappings each holding a string `topic`, a string
explanation field (`subject_explaination`), and a `related_categories`
sequence of strings; any single deviation yields `false`.  (The
embedding is a pure function, matching the no-side-effects part of the
claim.) -/
theorem validate_structure_iff_shaped (data : PyVal) :
    validate_structure data = true ↔ ShapedPerSpec data := by
  cases data with
  | list items =>
      simp only [validate_structure, List.all_eq_true, ShapedPerSpec,
        PyVal.list.injEq]
      constructor
      · intro h
        exact ⟨items, rfl, fun item hm => (validItem_iff item).mp (h item hm)⟩
      · rintro ⟨items2, rfl, h⟩
        exact fun item hm => (validItem_iff item).mpr (h item hm)
  | str s => simp [validate_structure, ShapedPerSpec]
  | int n => simp [validate_structure, ShapedPerSpec]
  | bool b => simp [validate_structure, ShapedPerSpec]
  | pynone => simp [validate_structure, ShapedPerSpec]
  | dict d => simp [validate_structure, ShapedPerSpec]

/-- C1.  Divergence between `test.py` and the retry bound.  With an
external capability that on every attempt returns (without raising) a
structure the validator rejects, the `find_topics` loop of `test.py`
never increments `attempts` (the increment sits only in the `except`
branch) and therefore never terminates, for any amount of fuel; the
earlier revision `test_archive.py`, which increments on validation
failure, terminates after exactly `max_retries = 3` invocations and
returns the single-element empty-placeholder structure, as the claim
states. -/
theorem find_topics_retry_divergence :
    (∀ fuel : Nat, find_topics badLLM 3 fuel = none) ∧
    find_topics_archive badLLM 3 = .ok (placeholderList, 3) := by
  exact ⟨fun fuel => find_topics_loop_badLLM fuel 0, rfl⟩

/-- C9.  The validator accepts the empty sequence, and whenever the
capability returns a valid empty JSON array on the attempt the loop is
about to make, `find_topics` returns the empty sequence immediately
(so downstream stages may receive zero topics; the placeholder arises
only from retry exhaustion). -/
theorem validate_empty_and_immediate_return :
    validate_structure (.list []) = true ∧
    (∀ (llm : LLM) (maxRetries fuel : Nat), 0 < maxRetries →
        llm 0 = .ok (.list []) →
        find_topics llm maxRetries (fuel + 1) = some (.list [])) ∧
    (∀ (llm : LLM) (maxRetries i attempts fuel : Nat), attempts < maxRetries →
        llm i = .ok (.list []) →
        find_topics_loop llm maxRetries i attempts (fuel + 1) = some (.list [])) := by
  refine ⟨rfl, ?_, ?_⟩
  · intro llm maxRetries fuel hm h0
    simp [find_topics, find_topics_loop, hm, h0, validate_structure]
  · intro llm maxRetries i attempts fuel hm hi
    simp [find_topics_loop, hm, hi, validate_structure]

theorem validate_empty_and_immediate_return_witness :
    find_topics (fun _ => .ok (.list [])) 3 1 = some (.list []) := by
  exact validate_empty_and_immediate_return.2.1 (fun _ => .ok (.list [])) 3 0
    (by decide) rfl

/-- C7.  `openfile` returns the empty list whenever the backing file is
missing or malformed (`fs name = none`), and a missing concept-reference
corpus propagates through `find_references` as the empty zero-score
result instead of an exception. -/
theorem openfile_degrades_to_empty (fs : FS) :
    (∀ name, fs name = none → openfile fs name = .list []) ∧
    (fs referFile = none →
      ∀ concepts, find_references fs concepts = .ok ([], 0)) := by
  constructor
  · intro name h
    simp [openfile, h]
  · intro h concepts
    unfold find_references
    rw [show openfile fs referFile = PyVal.list [] from by simp [openfile, h]]
    rfl

theorem openfile_degrades_to_empty_witness :
    openfile (fun _ => none) topicFile = .list [] ∧
    find_references (fun _ => none) .pynone = .ok ([], 0) := by
  refine ⟨(openfile_degrades_to_empty (fun _ => none)).1 topicFile rfl,
    (openfile_degrades_to_empty (fun _ => none)).2 rfl .pynone⟩

theorem pyIn_str_map (t : String) (ts : List String) :
    pyIn (.str t) (ts.map PyVal.str) = decide (t ∈ ts) := by
  induction ts with
  | nil => simp [pyIn]
  | cons s ss ih =>
      simp only [pyIn, List.map_cons, List.any_cons] at ih ⊢
      rw [ih, show pyEq (.str t) (.str s) = (t == s) from rfl]
      simp [List.mem_cons]
      by_cases h : t = s <;> simp [h]

theorem overlapCount_encoded (cats : List String) (cfl : List String) :
    overlapCount (cats.map PyVal.str) cfl
      = (cats.filter (fun c => decide (c ∈ cfl))).length := by
  induction cats with
  | nil => rfl
  | cons c cs ih =>
      simp only [overlapCount, List.map_cons, List.filter_cons, pyIn_str_map] at ih ⊢
      by_cases h : c ∈ cfl <;> simp [h, ih]

theorem pySetItem_encodeRef (r : RefData) (c : Nat) :
    pySetItem (encodeRef r) "star" (.int c) = .ok (encodeScored r c) := rfl

theorem refTitles_encoded (acc : List (RefData × Nat)) :
    refTitles (acc.map encodeScoredP)
      = .ok (acc.map (fun p => PyVal.str p.1.title)) := by
  induction acc with
  | nil => rfl
  | cons p rest ih =>
      simp only [List.map_cons, refTitles]
      rw [show pyGetItem (encodeScoredP p) "Title" = .ok (.str p.1.title) from rfl, ih]
      rfl

theorem exc_bind_ok {α β : Type} (a : α) (f : α → Except Unit β) :
    (Except.ok a : Except Unit α) >>= f = f a := rfl

theorem addEntryRefs_sim (count : Nat) (refs : List RefData) :
    ∀ acc : List (RefData × Nat),
      addEntryRefs count (acc.map encodeScoredP) (refs.map encodeRef)
        = .ok ((addEntryRefsT count acc refs).map encodeScoredP) := by
  induction refs with
  | nil => intro acc; rfl
  | cons item rest ih =>
      intro acc
      simp only [List.map_cons, addEntryRefs, addEntryRefsT]
      rw [pySetItem_encodeRef, exc_bind_ok]
      rw [show pyGetItem (encodeScored item count) "Title" = .ok (.str item.title) from rfl,
        exc_bind_ok]
      rw [refTitles_encoded, exc_bind_ok]
      have hmap : (acc.map fun p => PyVal.str p.1.title)
          = (acc.map fun p => p.1.title).map PyVal.str := by
        simp [List.map_map, Function.comp]
      rw [hmap, pyIn_str_map]
      by_cases h : item.title ∈ acc.map (fun p => p.1.title)
      · rw [if_pos (by simp [h]), if_pos h]
        exact ih acc
      · rw [if_neg (by simp [h]), if_neg h]
        have h2 := ih (acc ++ [(item, count)])
        simpa [List.map_append, encodeScoredP] using h2

theorem collectEntries_sim (cats : List String) (es : List CEntry) :
    ∀ acc : List (RefData × Nat),
      collectEntries (.list (cats.map PyVal.str)) (acc.map encodeScoredP) (es.map encodeEntry)
        = .ok ((collectT cats acc es).map encodeScoredP) := by
  induction es with
  | nil => intro acc; rfl
  | cons cf rest ih =>
      intro acc
      simp only [List.map_cons, collectEntries, collectT]
      rw [show pyGetItem (encodeEntry cf) "concepts" = .ok (.str cf.concepts) from rfl,
        exc_bind_ok]
      rw [show pySplitStr (.str cf.concepts) = .ok (pySplitComma cf.concepts) from rfl,
        exc_bind_ok]
      rw [show pyIterate (.list (cats.map PyVal.str)) = .ok (cats.map PyVal.str) from rfl,
        exc_bind_ok]
      rw [overlapCount_encoded]
      by_cases hc : (cats.filter (fun c => decide (c ∈ pySplitComma cf.concepts))).length > 0
      · rw [if_pos hc, if_pos hc]
        rw [show pyGetItem (encodeEntry cf) "references"
              = .ok (.list (cf.references.map encodeRef)) from rfl, exc_bind_ok]
        rw [show pyIterate (.list (cf.references.map encodeRef))
              = .ok (cf.references.map encodeRef) from rfl, exc_bind_ok]
        rw [addEntryRefs_sim, exc_bind_ok]
        exact ih _
      · rw [if_neg hc, if_neg hc]
        rw [show (pure (acc.map encodeScoredP) : Except Unit (List PyVal))
              = .ok (acc.map encodeScoredP) from rfl, exc_bind_ok]
        exact ih acc

theorem find_references_encoded (cats : List String) (es : List CEntry) :
    find_references (encFS es) (.list (cats.map PyVal.str))
      = .ok (sortByStar ((collectT cats [] es).map encodeScoredP),
             (collectT cats [] es).length) := by
  have hopen : openfile (encFS es) referFile = .list (es.map encodeEntry) := by
    simp [openfile, encFS]
  simp only [find_references, hopen]
  rw [show pyIterate (.list (es.map encodeEntry)) = .ok (es.map encodeEntry) from rfl,
    exc_bind_ok]
  rw [show (([] : List PyVal) = ([] : List (RefData × Nat)).map encodeScoredP) from rfl]
  rw [collectEntries_sim, exc_bind_ok]
  simp only [List.length_map]
  rfl

theorem starOf_encodeScored (r : RefData) (c : Nat) :
    starOf (encodeScored r c) = (c : Int) := rfl

theorem sortByStar_sorted (l : List PyVal) : List.Sorted rStar (sortByStar l) :=
  List.sorted_insertionSort rStar l

/-- Stability of the sort of `find_references`: the records carrying any
fixed score keep, in the sorted output, exactly the relative order they
had in the accumulated list. -/
theorem sortByStar_stable (l : List PyVal) (s : Int) :
    (sortByStar l).filter (fun r => starOf r == s)
      = l.filter (fun r => starOf r == s) := by
  have hmem : ∀ x ∈ l.filter (fun r => starOf r == s), starOf x = s := by
    intro x hx
    have hf := List.of_mem_filter hx
    simpa using hf
  have hpair : (l.filter (fun r => starOf r == s)).Pairwise rStar :=
    List.pairwise_of_forall_mem_list (fun a ha b hb => by
      simp [rStar, hmem a ha, hmem b hb])
  have hsub : List.Sublist (l.filter (fun r => starOf r == s)) l := List.filter_sublist l
  have hst : List.Sublist (l.filter (fun r => starOf r == s)) (sortByStar l) :=
    List.sublist_insertionSort hpair hsub
  have h1 : List.Sublist
      ((l.filter (fun r => starOf r == s)).filter (fun r => starOf r == s))
      ((sortByStar l).filter (fun r => starOf r == s)) :=
    hst.filter _
  have h2 : (l.filter (fun r => starOf r == s)).filter (fun r => starOf r == s)
      = l.filter (fun r => starOf r == s) := by
    apply List.filter_eq_self.mpr
    intro a ha
    have hp := List.of_mem_filter ha
    exact hp
  rw [h2] at h1
  have hperm : List.Perm ((sortByStar l).filter (fun r => starOf r == s))
      (l.filter (fun r => starOf r == s)) :=
    (List.perm_insertionSort rStar l).filter _
  exact (h1.eq_of_length hperm.length_eq.symm).symm

def c3r1 : RefData := ⟨"R1", ["a1"], "s1", "d1", "m1"⟩

def c3r2 : RefData := ⟨"R2", ["a2"], "s2", "d2", "m2"⟩

/-- The two map entries of the determinism scenario of §8:
`[{concepts:{"A","C"}, refs:[R1]}, {concepts:{"A","B"}, refs:[R2]}]`. -/
def c3es : List CEntry := [⟨"A,C", [c3r1]⟩, ⟨"A,B", [c3r2]⟩]

/-- C3.  The list returned by `find_references` is sorted by score
descending; the sort is stable (records with any fixed score keep the
relative order in which they were appended); and on the spec scenario
with categories `["A","B"]` the ranked output is `[R2(score 2),
R1(score 1)]` with `total_count = 2`. -/
theorem find_references_ranked_stable :
    (∀ l : List PyVal, List.Sorted rStar (sortByStar l)) ∧
    (∀ (l : List PyVal) (s : Int),
        (sortByStar l).filter (fun r => starOf r == s)
          = l.filter (fun r => starOf r == s)) ∧
    find_references (encFS c3es) (.list [.str "A", .str "B"])
      = .ok ([encodeScored c3r2 2, encodeScored c3r1 1], 2) :=
  ⟨sortByStar_sorted, sortByStar_stable, rfl⟩

theorem addEntryRefsT_titles_nodup (count : Nat) (refs : List RefData) :
    ∀ acc : List (RefData × Nat), (acc.map (fun p => p.1.title)).Nodup →
      ((addEntryRefsT count acc refs).map (fun p => p.1.title)).Nodup := by
  induction refs with
  | nil => intro acc h; exact h
  | cons item rest ih =>
      intro acc h
      simp only [addEntryRefsT]
      by_cases hm : item.title ∈ acc.map (fun p => p.1.title)
      · rw [if_pos hm]
        exact ih acc h
      · rw [if_neg hm]
        apply ih
        simp [List.map_append, List.nodup_append, h, hm]

theorem collectT_titles_nodup (cats : List String) (es : List CEntry) :
    ∀ acc : List (RefData × Nat), (acc.map (fun p => p.1.title)).Nodup →
      ((collectT cats acc es).map (fun p => p.1.title)).Nodup := by
  induction es with
  | nil => intro acc h; exact h
  | cons cf rest ih =>
      intro acc h
      simp only [collectT]
      by_cases hc : (cats.filter (fun c => decide (c ∈ pySplitComma cf.concepts))).length > 0
      · rw [if_pos hc]
        exact ih _ (addEntryRefsT_titles_nodup _ _ acc h)
      · rw [if_neg hc]
        exact ih acc h

def c4r1 : RefData := ⟨"T", ["a1"], "s1", "d1", "m1"⟩

def c4r2 : RefData := ⟨"T", ["a2"], "s2", "d2", "m2"⟩

/-- Two concept entries both referencing a record titled `"T"`; the
first encountered carries overlap 1, the second overlap 2. -/
def c4es : List CEntry := [⟨"A", [c4r1]⟩, ⟨"A,B", [c4r2]⟩]

/-- C4.  Titles in any list returned by `find_references` (run on a
well-formed concept-reference corpus) are unique, and when two entries
reference records with the same title, the output keeps the record of
the first encounter with the score of the first encounter (here score 1,
not the later 2). -/
theorem find_references_titles_unique :
    (∀ (cats : List String) (es : List CEntry) (out : List PyVal × Nat),
        find_references (encFS es) (.list (cats.map PyVal.str)) = .ok out →
        (out.1.map titleOf).Nodup) ∧
    find_references (encFS c4es) (.list [.str "A", .str "B"])
      = .ok ([encodeScored c4r1 1], 1) := by
  constructor
  · intro cats es out hout
    rw [find_references_encoded] at hout
    injection hout with h
    subst h
    have hperm : List.Perm (((collectT cats [] es).map encodeScoredP).map titleOf)
        ((sortByStar ((collectT cats [] es).map encodeScoredP)).map titleOf) :=
      ((List.perm_insertionSort rStar _).map titleOf).symm
    apply hperm.nodup
    have hcomp : ((collectT cats [] es).map encodeScoredP).map titleOf
        = ((collectT cats [] es).map (fun p => p.1.title)).map PyVal.str := by
      simp only [List.map_map]
      exact List.map_congr_left (fun p _ => rfl)
    rw [hcomp]
    apply List.Nodup.map (fun a b hab => by injection hab)
    exact collectT_titles_nodup cats es [] (by simp)
  · rfl

theorem find_references_titles_unique_witness :
    (([encodeScored c4r1 1] : List PyVal).map titleOf).Nodup :=
  find_references_titles_unique.1 ["A", "B"] c4es ([encodeScored c4r1 1], 1) rfl

def c2r1 : RefData := ⟨"R1", ["a"], "s", "d", "m"⟩

/-- A single map entry with concept set `{"A","B"}`. -/
def c2es : List CEntry := [⟨"A,B", [c2r1]⟩]

/-- C2, counterexample.  With `related_categories = ["A","A"]` and the
single entry `{concepts:{"A","B"}, refs:[R1]}`, the scorer assigns
`star = 2`, while the number of distinct categories shared between
`["A","A"]` and the entry is `1`: a duplicate occurrence does increase
the count, contradicting the claim. -/
theorem find_references_duplicates_inflate :
    find_references (encFS c2es) (.list [.str "A", .str "A"])
      = .ok ([encodeScored c2r1 2], 1) ∧
    overlapCount [PyVal.str "A", PyVal.str "A"] (pySplitComma "A,B") = 2 ∧
    ((["A", "A"] : List String).dedup.filter
        (fun c => decide (c ∈ pySplitComma "A,B"))).length = 1 ∧
    (2 : Nat) ≠ 1 := by
  refine ⟨rfl, rfl, by decide, by decide⟩

/-- C2, amended.  The overlap count equals the number of positions of
`related_categories` whose value occurs among the entry's comma-split
concepts — each duplicate occurrence counts once more; only when
`related_categories` is duplicate-free does it equal the number of
distinct shared categories. -/
theorem overlapCount_counts_occurrences (cats : List String) (cfl : List String) :
    overlapCount (cats.map PyVal.str) cfl
      = (cats.filter (fun c => decide (c ∈ cfl))).length ∧
    (cats.Nodup →
      overlapCount (cats.map PyVal.str) cfl
        = (cats.toFinset ∩ cfl.toFinset).card) := by
  classical
  refine ⟨overlapCount_encoded cats cfl, fun hnd => ?_⟩
  rw [overlapCount_encoded]
  have h1 : (cats.filter (fun c => decide (c ∈ cfl))).Nodup := hnd.filter _
  rw [← List.toFinset_card_of_nodup h1]
  congr 1
  rw [List.toFinset_filter]
  rw [← Finset.filter_mem_eq_inter]
  apply Finset.filter_congr
  intro x _hx
  simp [List.mem_toFinset]

theorem overlapCount_counts_occurrences_witness :
    overlapCount [PyVal.str "A", PyVal.str "B"] ["A", "C"]
      = ((["A", "B"] : List String).toFinset ∩ (["A", "C"] : List String).toFinset).card :=
  (overlapCount_counts_occurrences ["A", "B"] ["A", "C"]).2 (by decide)

theorem scoreAttempt_ok_setItem {fs : FS} {ele out : PyVal}
    (h : scoreAttempt fs ele = .ok out) :
    ∃ refs : List PyVal, refs.length ≤ 2 ∧
      pySetItem ele "recommended_references" (.list refs) = .ok out := by
  unfold scoreAttempt at h
  cases hrc : pyGetItem ele "related_categories" with
  | error e =>
      rw [hrc] at h
      exact absurd h (by simp [Bind.bind, Except.bind])
  | ok rc =>
      rw [hrc, exc_bind_ok] at h
      cases hres : find_references fs rc with
      | error e =>
          rw [hres] at h
          exact absurd h (by simp [Bind.bind, Except.bind])
      | ok res =>
          rw [hres, exc_bind_ok] at h
          exact ⟨res.1.take 2, List.length_take_le 2 res.1, h⟩

/-- C6.  `find_relevent_refs` processes each topic independently: it maps
`enrichTopic` over the whole sequence (so a per-topic exception never
aborts the batch), a topic whose scoring raises is returned unchanged,
and a topic scored without exception receives a `recommended_references`
list of at most `N = 2` records. -/
theorem find_relevent_refs_isolates (fs : FS) (items : List PyVal) :
    find_relevent_refs fs (.list items) = .ok (.list (items.map (enrichTopic fs))) ∧
    (∀ ele, scoreAttempt fs ele = .error () → enrichTopic fs ele = ele) ∧
    (∀ ele out, scoreAttempt fs ele = .ok out →
        enrichTopic fs ele = out ∧
        ∃ refs : List PyVal,
          pyGetItem out "recommended_references" = .ok (.list refs) ∧
          refs.length ≤ 2) := by
  refine ⟨rfl, ?_, ?_⟩
  · intro ele herr
    simp [enrichTopic, herr]
  · intro ele out h
    obtain ⟨refs, hlen, hset⟩ := scoreAttempt_ok_setItem h
    exact ⟨by simp [enrichTopic, h], refs, pyGetItem_pySetItem_self hset, hlen⟩

/-- A filesystem with no corpus files at all (both loads degrade). -/
def c6fs : FS := fun _ => none

def c6topic : PyVal := .dict [("related_categories", .list [])]

def c6out : PyVal :=
  match scoreAttempt c6fs c6topic with
  | .ok o => o
  | .error _ => .pynone

theorem find_relevent_refs_isolates_witness :
    enrichTopic c6fs (.int 7) = .int 7 ∧
    (enrichTopic c6fs c6topic = c6out ∧
      ∃ refs : List PyVal,
        pyGetItem c6out "recommended_references" = .ok (.list refs) ∧
        refs.length ≤ 2) := by
  have h := find_relevent_refs_isolates c6fs [c6topic, .int 7]
  exact ⟨h.2.1 (.int 7) rfl, h.2.2 c6topic c6out rfl⟩

theorem enrichTopic_preserves (fs : FS) (ele : PyVal) (k : String)
    (hk : k ≠ "recommended_references") :
    pyGetItem (enrichTopic fs ele) k = pyGetItem ele k := by
  cases h : scoreAttempt fs ele with
  | error e => simp [enrichTopic, h]
  | ok out =>
      obtain ⟨refs, _hlen, hset⟩ := scoreAttempt_ok_setItem h
      rw [show enrichTopic fs ele = out from by simp [enrichTopic, h]]
      exact pyGetItem_pySetItem_ne hset hk

/-- C10.  `find_relevent_refs` returns the input sequence itself,
enriched element by element: same length and order, and every key other
than `recommended_references` (in particular `topic`,
`subject_explaination` and `related_categories`) reads exactly as in the
corresponding input topic. -/
theorem find_relevent_refs_frame (fs : FS) (items : List PyVal) (out : PyVal)
    (h : find_relevent_refs fs (.list items) = .ok out) :
    ∃ enriched : List PyVal, out = .list enriched ∧
      enriched.length = items.length ∧
      ∀ (i : Nat) (h1 : i < items.length) (h2 : i < enriched.length) (k : String),
        k ≠ "recommended_references" →
        pyGetItem (enriched.get ⟨i, h2⟩) k = pyGetItem (items.get ⟨i, h1⟩) k := by
  refine ⟨items.map (enrichTopic fs), ?_, by simp, ?_⟩
  · have h2 := h
    simp only [find_relevent_refs, Except.ok.injEq] at h2
    exact h2.symm
  · intro i h1 h2 k hk
    have hget : (items.map (enrichTopic fs)).get ⟨i, h2⟩
        = enrichTopic fs (items.get ⟨i, h1⟩) := by
      simp [List.get_eq_getElem, List.getElem_map]
    rw [hget]
    exact enrichTopic_preserves fs _ k hk

def c10items : List PyVal :=
  [.dict [("topic", .str "t"), ("subject_explaination", .str "e"),
          ("related_categories", .list [])]]

theorem find_relevent_refs_frame_witness :
    ∃ enriched : List PyVal,
      (PyVal.list (c10items.map (enrichTopic c6fs))) = .list enriched ∧
      enriched.length = c10items.length ∧
      ∀ (i : Nat) (h1 : i < c10items.length) (h2 : i < enriched.length) (k : String),
        k ≠ "recommended_references" →
        pyGetItem (enriched.get ⟨i, h2⟩) k = pyGetItem (c10items.get ⟨i, h1⟩) k :=
  find_relevent_refs_frame c6fs c10items (.list (c10items.map (enrichTopic c6fs))) rfl

/-- C8.  `main` never raises: its only outcomes are the pair produced
from a successful run, the fixed `("No references found",
chain-of-thought-so-far)` pair whenever formatting the references
raises (the only raising step of `main`, since both `_append` helpers of
`generate_chain_of_thought` catch all exceptions), or — `none` — the
non-termination of the retry loop inside extraction, which is not an
exception. -/
theorem main_never_raises_degrades (fs : FS) (llm : LLM) (text modelStr : String)
    (fuel : Nat) :
    (∀ (chain : String) (rr : PyVal),
        generate_chain_of_thought fs llm text modelStr fuel = some (chain, rr) →
        format_relevant_refs rr = .error () →
        main fs llm text modelStr fuel = some ("No references found", chain)) ∧
    (main fs llm text modelStr fuel = none →
        generate_chain_of_thought fs llm text modelStr fuel = none) := by
  constructor
  · intro chain rr hgen hfmt
    simp [main, hgen, hfmt]
  · intro h
    cases hg : generate_chain_of_thought fs llm text modelStr fuel with
    | none => rfl
    | some p =>
        obtain ⟨chain, rr⟩ := p
        exfalso
        cases hf : format_relevant_refs rr with
        | ok s => simp [main, hg, hf] at h
        | error e => simp [main, hg, hf] at h

/-- A filesystem whose concept-reference corpus parses to the
non-iterable value `5`: scoring then raises for every topic, the topics
keep no `recommended_references`, and `format_relevant_refs` raises. -/
def c8fs : FS := fun name => if name = referFile then some (.int 5) else none

def c8topic : PyVal :=
  .dict [("topic", .str "T"), ("subject_explaination", .str "E"),
         ("related_categories", .list [])]

/-- A capability whose first response is already valid. -/
def c8llm : LLM := fun _ => .ok (.list [c8topic])

def c8pair : Option (String × PyVal) :=
  generate_chain_of_thought c8fs c8llm "draft" "gpt" 1

def c8chain : String :=
  match c8pair with
  | some p => p.1
  | none => ""

def c8rr : PyVal :=
  match c8pair with
  | some p => p.2
  | none => .pynone

theorem main_never_raises_degrades_witness :
    main c8fs c8llm "draft" "gpt" 1 = some ("No references found", c8chain) :=
  (main_never_raises_degrades c8fs c8llm "draft" "gpt" 1).1 c8chain c8rr rfl rfl
